import Mathlib

/-!
Shallow embedding of `src/ColorSequenceGame/ColorSequenceGame.ino`
(BlueHatDude/ColorSequenceMemoryGame), a Simon-says style memory game for a
microcontroller with four button/LED pairs.

Modelling conventions:
* Machine integers (`uint8_t`) are `Nat` with `% 256` where overflow matters.
* Randomness is parametrised: `random(RED, YELLOW + 1)` returns a value in
  the interval `[1, 4]`, so the embedded `addColor` takes that value as an
  argument `r : Nat`; theorems hypothesise `1 ≤ r ∧ r ≤ 4` where the range
  matters.
* The blocking button reads of `getButtonColor` are parametrised by an input
  stream `inputs : Nat → Color`: call number `i` of `getButtonColor` inside a
  round returns `inputs i`.
* The raw array write `g_GameState.sequence[g_GameState.index] = color` has
  no bounds check in the C source; the write is undefined behavior when
  `index ≥ 25`. The embedding makes that fallibility explicit: `addColor`
  returns `none` exactly when the write would be out of bounds.
* LED output is modelled as a trace of pin numbers (for `displaySequence`)
  and a flag recording whether the loss animation ran (for `loop`).
-/

/-- The `Color` enum of the sketch: `NO_COLOR, RED, BLUE, GREEN, YELLOW`
(underlying `uint8_t` values 0..4, `NO_COLOR = 0`). -/
inductive Color : Type where
  | NO_COLOR : Color
  | RED : Color
  | BLUE : Color
  | GREEN : Color
  | YELLOW : Color
deriving DecidableEq, Repr, Fintype

/-- Pin constant `RED_BUTTON` (`#define RED_BUTTON 2`). -/
def RED_BUTTON : Nat := 2

/-- Pin constant `RED_LED` (`#define RED_LED 3`). -/
def RED_LED : Nat := 3

/-- Pin constant `BLUE_BUTTON` (`#define BLUE_BUTTON 4`). -/
def BLUE_BUTTON : Nat := 4

/-- Pin constant `BLUE_LED` (`#define BLUE_LED 5`). -/
def BLUE_LED : Nat := 5

/-- Pin constant `GREEN_BUTTON` (`#define GREEN_BUTTON 6`). -/
def GREEN_BUTTON : Nat := 6

/-- Pin constant `GREEN_LED` (`#define GREEN_LED 7`). -/
def GREEN_LED : Nat := 7

/-- Pin constant `YELLOW_BUTTON` (`#define YELLOW_BUTTON 8`). -/
def YELLOW_BUTTON : Nat := 8

/-- Pin constant `YELLOW_LED` (`#define YELLOW_LED 9`). -/
def YELLOW_LED : Nat := 9

/-- The `GameState` struct: `has_lost`, a 25-element `Color` array
(embedded as a `List Color`; the struct invariant `sequence.length = 25`
is carried as a hypothesis where it matters), and the `uint8_t` counter
`index`. -/
structure GameState : Type where
  has_lost : Bool
  sequence : List Color
  index : Nat
deriving DecidableEq, Repr

/-- The initialiser of `g_GameState`: `has_lost = false`,
`sequence = { NO_COLOR }` (C aggregate initialisation zero-fills the rest,
and `NO_COLOR` has value 0, so all 25 slots hold `NO_COLOR`), `index = 0`. -/
def initGameState : GameState :=
  { has_lost := false, sequence := List.replicate 25 Color.NO_COLOR, index := 0 }

/-- The C cast `(Color) v` applied to the result of
`random(RED, YELLOW + 1)`: value 1 is `RED`, 2 `BLUE`, 3 `GREEN`,
4 `YELLOW`; 0 is `NO_COLOR`. (Values above 4 are outside the enumerators
and never produced by `random(1, 5)`; the catch-all branch is a modelling
default only.) -/
def natToColor : Nat → Color
  | 1 => Color.RED
  | 2 => Color.BLUE
  | 3 => Color.GREEN
  | 4 => Color.YELLOW
  | _ => Color.NO_COLOR

/-- `addColor`: writes `natToColor r` (where `r` is the value returned by
`random(RED, YELLOW + 1)`) to `sequence[index]` and increments the
`uint8_t` counter `index`. The C source performs the array write with no
bounds check; the write is in bounds exactly when `index < 25`, and the
embedding returns `none` in the out-of-bounds case (which is undefined
behavior in the source, not a branch of the code). -/
def addColor (s : GameState) (r : Nat) : Option GameState :=
  if s.index < 25 then
    some { s with
      sequence := s.sequence.set s.index (natToColor r),
      index := (s.index + 1) % 256 }
  else
    none

/-- The pin selected by `displayColor`'s `switch`: the LED pin of the four
playable colors; for `NO_COLOR` (the `default:` case) the local
`color_pin = 0` is left unchanged, so the pulse goes to pin 0. -/
def displayColorPin : Color → Nat
  | Color.RED => RED_LED
  | Color.BLUE => BLUE_LED
  | Color.GREEN => GREEN_LED
  | Color.YELLOW => YELLOW_LED
  | Color.NO_COLOR => 0

/-- `displaySequence`: for `i = 0 .. index - 1` it calls
`displayColor(sequence[i])`, each call driving one pin high then low (one
pulse). The embedding returns the unchanged game state paired with the
trace of pulsed pins, in order. -/
def displaySequence (s : GameState) : GameState × List Nat :=
  (s, (s.sequence.take s.index).map displayColorPin)

/-- Snapshot of the four button state globals as read by
`updateButtonStates` (`true` = `HIGH`). -/
structure ButtonStates : Type where
  red : Bool
  blue : Bool
  green : Bool
  yellow : Bool
deriving DecidableEq, Repr, Fintype

/-- `buttonIsPressed`: true when any of the four sampled lines is `HIGH`. -/
def buttonIsPressed (b : ButtonStates) : Bool :=
  b.red || b.blue || b.green || b.yellow

/-- `getButtonPressed`: returns the button pin of the first `HIGH` line in
the fixed order red, blue, green, yellow; 0 when none is `HIGH`. -/
def getButtonPressed (b : ButtonStates) : Nat :=
  if b.red then RED_BUTTON
  else if b.blue then BLUE_BUTTON
  else if b.green then GREEN_BUTTON
  else if b.yellow then YELLOW_BUTTON
  else 0

/-- `colorToLED`: LED pin of each color; 0 for `NO_COLOR`. -/
def colorToLED : Color → Nat
  | Color.RED => RED_LED
  | Color.BLUE => BLUE_LED
  | Color.GREEN => GREEN_LED
  | Color.YELLOW => YELLOW_LED
  | Color.NO_COLOR => 0

/-- `buttonToLED`: LED pin of each button pin. The `default:` branch of the
C source is `return NO_COLOR;` — an enum value used as a `uint8_t`, whose
numeric value is 0 — so unknown pins map to 0. -/
def buttonToLED (btn_pin : Nat) : Nat :=
  if btn_pin = RED_BUTTON then RED_LED
  else if btn_pin = BLUE_BUTTON then BLUE_LED
  else if btn_pin = GREEN_BUTTON then GREEN_LED
  else if btn_pin = YELLOW_BUTTON then YELLOW_LED
  else 0

/-- `buttonToColor`: color of each button pin; `NO_COLOR` for unknown pins. -/
def buttonToColor (btnPin : Nat) : Color :=
  if btnPin = RED_BUTTON then Color.RED
  else if btnPin = BLUE_BUTTON then Color.BLUE
  else if btnPin = GREEN_BUTTON then Color.GREEN
  else if btnPin = YELLOW_BUTTON then Color.YELLOW
  else Color.NO_COLOR

/-- The value `getButtonColor` returns once its busy-wait has observed a
press with line snapshot `b`: it classifies the press with
`getButtonPressed` and converts the chosen pin with `buttonToColor` (the
LED feedback and the hold-release wait perform I/O only). -/
def getButtonColor (b : ButtonStates) : Color :=
  buttonToColor (getButtonPressed b)

/-- The comparison phase of `startNextRound`: the loop
`for btnsPressed in 0 .. index - 1` reads one player input per iteration
(`getButtonColor`, here the next stream element) and compares it to the
expected element; on the first mismatch it sets the lost flag and returns
at once. Result: (lost flag, number of inputs consumed). -/
def checkInputs : List Color → (Nat → Color) → Bool × Nat
  | [], _ => (false, 0)
  | e :: es, inputs =>
    if inputs 0 ≠ e then
      (true, 1)
    else
      let p := checkInputs es (fun i => inputs (i + 1))
      (p.1, p.2 + 1)

/-- `startNextRound`: `addColor`, then `displaySequence`, then the
comparison phase. `r` is the value `random` produced for this round and
`inputs` the round's stream of classified player inputs. Returns `none`
when `addColor`'s array write would be out of bounds. -/
def startNextRound (s : GameState) (r : Nat) (inputs : Nat → Color) : Option GameState :=
  match addColor s r with
  | none => none
  | some s1 =>
    let played := displaySequence s1
    let res := checkInputs (played.1.sequence.take played.1.index) inputs
    if res.1 then some { played.1 with has_lost := true } else some played.1

/-- One iteration of `loop()`: if `has_lost` is not set, run
`startNextRound`; otherwise run `showLoss`, which writes LEDs only. The
`Bool` in the result records whether the loss animation ran this
iteration. -/
def loopStep (s : GameState) (r : Nat) (inputs : Nat → Color) :
    Option (GameState × Bool) :=
  if s.has_lost then some (s, true)
  else (startNextRound s r inputs).map (fun s1 => (s1, false))

/-- Iterated `loop()`: one `(r, inputs)` pair of round parameters per
iteration (unused by an iteration that runs the loss animation). -/
def runLoop (s : GameState) : List (Nat × (Nat → Color)) → Option GameState
  | [] => some s
  | p :: rest =>
    match loopStep s p.1 p.2 with
    | none => none
    | some t => runLoop t.1 rest

/-- A chain of successful rounds: each `startNextRound` must complete with
`has_lost` still false for the chain to continue. -/
def runRounds (s : GameState) : List (Nat × (Nat → Color)) → Option GameState
  | [] => some s
  | p :: rest =>
    match startNextRound s p.1 p.2 with
    | none => none
    | some s1 => if s1.has_lost then none else runRounds s1 rest

/-- The priority order in which `getButtonPressed` examines the lines. -/
def priorityColors : List Color :=
  [Color.RED, Color.BLUE, Color.GREEN, Color.YELLOW]

/-- Whether the sampled line of a given color is `HIGH`. -/
def linePressed (b : ButtonStates) : Color → Bool
  | Color.RED => b.red
  | Color.BLUE => b.blue
  | Color.GREEN => b.green
  | Color.YELLOW => b.yellow
  | Color.NO_COLOR => false

/-- Spec-side selection: the highest-priority color whose line is `HIGH`
under the order red > blue > green > yellow. -/
def highestPriorityPressed (b : ButtonStates) : Option Color :=
  priorityColors.find? (linePressed b)

/-- The button pin belonging to each playable color (inverse direction of
`buttonToColor`; 0 for `NO_COLOR`). -/
def colorToButton : Color → Nat
  | Color.RED => RED_BUTTON
  | Color.BLUE => BLUE_BUTTON
  | Color.GREEN => GREEN_BUTTON
  | Color.YELLOW => YELLOW_BUTTON
  | Color.NO_COLOR => 0

/-- The invariant of C9: the struct's array length, the capacity bound on
`index`, and playability of every live slot. -/
def liveColorsOk (s : GameState) : Prop :=
  s.sequence.length = 25 ∧ s.index ≤ 25 ∧
  ∀ i, i < s.index → s.sequence.getD i Color.NO_COLOR ∈ priorityColors

/-! ### Helper lemmas -/

theorem getD_set_self (l : List Color) (i : Nat) (c d : Color)
    (h : i < l.length) : (l.set i c).getD i d = c := by
  simp [List.getD_eq_getElem?_getD, List.getElem?_set_self, h]

theorem getD_set_ne (l : List Color) (i j : Nat) (c d : Color)
    (h : i ≠ j) : (l.set i c).getD j d = l.getD j d := by
  simp [List.getD_eq_getElem?_getD, List.getElem?_set_ne h]

theorem getD_take (l : List Color) (n i : Nat) (d : Color) (h : i < n) :
    (l.take n).getD i d = l.getD i d := by
  simp [List.getD_eq_getElem?_getD, List.getElem?_take, h]

/-- Characterisation of a successful `addColor`: it requires the in-bounds
precondition `index < 25` and performs exactly the write at `index` plus
the increment (which cannot wrap at this magnitude). -/
theorem addColor_eq_some {s : GameState} {r : Nat} {s1 : GameState}
    (h : addColor s r = some s1) :
    s.index < 25 ∧
    s1 = { s with sequence := s.sequence.set s.index (natToColor r),
                  index := s.index + 1 } := by
  unfold addColor at h
  split at h
  · next hlt =>
    have hm : (s.index + 1) % 256 = s.index + 1 := Nat.mod_eq_of_lt (by omega)
    rw [hm] at h
    exact ⟨hlt, (Option.some.injEq _ _ ▸ h).symm⟩
  · cases h

/-- Characterisation of a successful `startNextRound`: `addColor` succeeded,
so `index < 25` held; the new `index` is one larger; the sequence got the
round's color written at the old `index`; and `has_lost` is the old flag
or-ed with the comparison phase's verdict on the updated live sequence. -/
theorem startNextRound_eq_some {s : GameState} {r : Nat}
    {inputs : Nat → Color} {s1 : GameState}
    (h : startNextRound s r inputs = some s1) :
    s.index < 25 ∧ s1.index = s.index + 1 ∧
    s1.sequence = s.sequence.set s.index (natToColor r) ∧
    s1.has_lost =
      (s.has_lost || (checkInputs (s1.sequence.take s1.index) inputs).1) := by
  unfold startNextRound at h
  cases hac : addColor s r with
  | none => rw [hac] at h; cases h
  | some sMid =>
    rw [hac] at h
    obtain ⟨hlt, hmid⟩ := addColor_eq_some hac
    subst hmid
    simp only [displaySequence] at h
    split at h
    · next hres =>
      injection h with h1
      subst h1
      exact ⟨hlt, rfl, rfl, by simp [hres]⟩
    · next hres =>
      injection h with h1
      subst h1
      simp only [Bool.not_eq_true] at hres
      exact ⟨hlt, rfl, rfl, by simp [hres]⟩

/-! ### Claim theorems -/

/-- C1: for every game state with sequence length N and every stream of
player inputs, the comparison phase of `startNextRound` (embedded as
`checkInputs` over the live sequence) stops at the first mismatch: a
mismatch at position k yields the lost flag after consuming exactly k + 1
inputs (positions k+1 .. N-1 stay unread); if all N inputs match, the lost
flag stays clear and exactly N inputs are consumed; and when the phase
reports a mismatch, `startNextRound` returns with `has_lost` set. -/
theorem checkInputs_first_mismatch_spec :
    (∀ (E : List Color) (inputs : Nat → Color) (k : Nat),
        k < E.length →
        (∀ i, i < k → inputs i = E.getD i Color.NO_COLOR) →
        inputs k ≠ E.getD k Color.NO_COLOR →
        checkInputs E inputs = (true, k + 1)) ∧
    (∀ (E : List Color) (inputs : Nat → Color),
        (∀ i, i < E.length → inputs i = E.getD i Color.NO_COLOR) →
        checkInputs E inputs = (false, E.length)) ∧
    (∀ (s : GameState) (r : Nat) (inputs : Nat → Color) (s1 : GameState),
        addColor s r = some s1 →
        (checkInputs (s1.sequence.take s1.index) inputs).1 = true →
        startNextRound s r inputs = some { s1 with has_lost := true }) := by
  refine ⟨?_, ?_, ?_⟩
  · intro E
    induction E with
    | nil => intro inputs k hk; simp at hk
    | cons e es ih =>
      intro inputs k hk hmatch hmis
      cases k with
      | zero =>
        simp only [List.getD_cons_zero] at hmis
        simp [checkInputs, hmis]
      | succ k =>
        have h0 : inputs 0 = e := by
          simpa using hmatch 0 (Nat.succ_pos k)
        have hrec := ih (fun i => inputs (i + 1)) k (by simpa using hk)
          (fun i hi => by simpa using hmatch (i + 1) (by omega))
          (by simpa using hmis)
        simp [checkInputs, h0, hrec]
  · intro E
    induction E with
    | nil => intro inputs _; simp [checkInputs]
    | cons e es ih =>
      intro inputs hmatch
      have h0 : inputs 0 = e := by
        simpa using hmatch 0 (by simp)
      have hrec := ih (fun i => inputs (i + 1))
        (fun i hi => by simpa using hmatch (i + 1) (by simpa using hi))
      simp [checkInputs, h0, hrec]
  · intro s r inputs s1 hac hres
    unfold startNextRound
    rw [hac]
    simp [displaySequence, hres]

/-- Concrete instance of C1: on sequence `[RED, BLUE]`, pressing RED then
GREEN loses after 2 inputs; echoing the sequence back succeeds consuming 2
inputs; and a first-round BLUE press against appended RED makes
`startNextRound` return with `has_lost` set. -/
theorem checkInputs_first_mismatch_spec_witness :
    checkInputs [Color.RED, Color.BLUE]
        (fun i => if i = 0 then Color.RED else Color.GREEN) = (true, 2) ∧
    checkInputs [Color.RED, Color.BLUE]
        (fun i => [Color.RED, Color.BLUE].getD i Color.NO_COLOR) = (false, 2) ∧
    startNextRound initGameState 1 (fun _ => Color.BLUE) =
      some { has_lost := true,
             sequence := Color.RED :: List.replicate 24 Color.NO_COLOR,
             index := 1 } :=
  ⟨checkInputs_first_mismatch_spec.1 [Color.RED, Color.BLUE] _ 1 (by decide)
      (by decide) (by decide),
   checkInputs_first_mismatch_spec.2.1 [Color.RED, Color.BLUE] _ (by decide),
   checkInputs_first_mismatch_spec.2.2 initGameState 1 _
      { has_lost := false,
        sequence := Color.RED :: List.replicate 24 Color.NO_COLOR,
        index := 1 }
      (by decide) (by decide)⟩

/-- C2: once `has_lost` is set, a `loop()` iteration runs the loss
animation and returns the state untouched, and no chain of further loop
iterations ever changes the state (in particular `has_lost` never reverts):
the Lost state is terminal within a power cycle. -/
theorem lost_state_terminal_spec :
    (∀ (s : GameState) (r : Nat) (inputs : Nat → Color),
        s.has_lost = true → loopStep s r inputs = some (s, true)) ∧
    (∀ (s : GameState) (rounds : List (Nat × (Nat → Color))) (s2 : GameState),
        s.has_lost = true → runLoop s rounds = some s2 → s2 = s) := by
  have h1 : ∀ (s : GameState) (r : Nat) (inputs : Nat → Color),
      s.has_lost = true → loopStep s r inputs = some (s, true) := by
    intro s r inputs hl
    simp [loopStep, hl]
  refine ⟨h1, ?_⟩
  intro s rounds s2 hl
  induction rounds generalizing s2 with
  | nil =>
    intro h
    simp only [runLoop] at h
    exact (Option.some.inj h).symm
  | cons p rest ih =>
    intro h
    simp only [runLoop] at h
    rw [h1 s p.1 p.2 hl] at h
    exact ih s2 h

/-- Concrete instance of C2: starting from a lost state, one iteration
runs the loss animation and keeps the state, and a two-iteration run ends
in the same state. -/
theorem lost_state_terminal_spec_witness :
    loopStep
        { has_lost := true,
          sequence := List.replicate 25 Color.NO_COLOR, index := 3 }
        1 (fun _ => Color.RED) =
      some ({ has_lost := true,
              sequence := List.replicate 25 Color.NO_COLOR, index := 3 }, true) ∧
    ({ has_lost := true,
       sequence := List.replicate 25 Color.NO_COLOR, index := 3 } : GameState) =
      { has_lost := true,
        sequence := List.replicate 25 Color.NO_COLOR, index := 3 } :=
  ⟨lost_state_terminal_spec.1
      { has_lost := true,
        sequence := List.replicate 25 Color.NO_COLOR, index := 3 }
      1 (fun _ => Color.RED) (by decide),
   lost_state_terminal_spec.2
      { has_lost := true,
        sequence := List.replicate 25 Color.NO_COLOR, index := 3 }
      [(1, fun _ => Color.RED), (2, fun _ => Color.BLUE)]
      { has_lost := true,
        sequence := List.replicate 25 Color.NO_COLOR, index := 3 }
      (by decide) (by decide)⟩

/-- A chain of successful rounds adds exactly its length to `index` and
ends with `has_lost` still clear. -/
theorem runRounds_index_add {rounds : List (Nat × (Nat → Color))} :
    ∀ (s s1 : GameState), s.has_lost = false →
      runRounds s rounds = some s1 →
      s1.index = s.index + rounds.length ∧ s1.has_lost = false := by
  induction rounds with
  | nil =>
    intro s s1 hl h
    simp only [runRounds] at h
    obtain rfl := Option.some.inj h
    exact ⟨by simp, hl⟩
  | cons p rest ih =>
    intro s s1 hl h
    simp only [runRounds] at h
    split at h
    · cases h
    · next sM hsr =>
      split at h
      · cases h
      · next hM =>
        simp only [Bool.not_eq_true] at hM
        have hstep := (startNextRound_eq_some hsr).2.1
        have hrest := ih sM s1 hM h
        refine ⟨?_, hrest.2⟩
        rw [hrest.1, hstep]
        simp only [List.length_cons]
        omega

/-- C3: each successful call of `startNextRound` increments `index` by
exactly one (`addColor` is the only write to `index`), so after N
successful rounds from the initial state the sequence length `index`
equals N and the game is still unlost. -/
theorem index_after_successful_rounds :
    (∀ (s : GameState) (r : Nat) (inputs : Nat → Color) (s1 : GameState),
        startNextRound s r inputs = some s1 → s1.index = s.index + 1) ∧
    (∀ (rounds : List (Nat × (Nat → Color))) (s1 : GameState),
        runRounds initGameState rounds = some s1 →
        s1.index = rounds.length ∧ s1.has_lost = false) := by
  refine ⟨fun s r inputs s1 h => (startNextRound_eq_some h).2.1, ?_⟩
  intro rounds s1 h
  have := runRounds_index_add initGameState s1 rfl h
  simpa [initGameState] using this

/-- Concrete instance of C3: one round that appends RED and receives RED
ends with `index = 1` and the game not lost. -/
theorem index_after_successful_rounds_witness :
    ({ has_lost := false,
       sequence := Color.RED :: List.replicate 24 Color.NO_COLOR,
       index := 1 } : GameState).index = initGameState.index + 1 ∧
    ({ has_lost := false,
       sequence := Color.RED :: List.replicate 24 Color.NO_COLOR,
       index := 1 } : GameState).index = 1 ∧
    ({ has_lost := false,
       sequence := Color.RED :: List.replicate 24 Color.NO_COLOR,
       index := 1 } : GameState).has_lost = false :=
  ⟨index_after_successful_rounds.1 initGameState 1 (fun _ => Color.RED)
      { has_lost := false,
        sequence := Color.RED :: List.replicate 24 Color.NO_COLOR, index := 1 }
      (by decide),
   (index_after_successful_rounds.2 [(1, fun _ => Color.RED)]
      { has_lost := false,
        sequence := Color.RED :: List.replicate 24 Color.NO_COLOR, index := 1 }
      (by decide)).1,
   (index_after_successful_rounds.2 [(1, fun _ => Color.RED)]
      { has_lost := false,
        sequence := Color.RED :: List.replicate 24 Color.NO_COLOR, index := 1 }
      (by decide)).2⟩

/-- C4: when the `random(RED, YELLOW + 1)` draw `r` lies in its range
`[1, 4]` and the write is in bounds, `addColor` appends exactly one color
at position `index` and increments `index`; the cast of the draw is never
`NO_COLOR`; and the cast is a bijection between draws `[1, 4]` and the
four playable colors, so a uniform draw gives a uniform playable color. -/
theorem addColor_appends_random_playable :
    (∀ (s : GameState) (r : Nat),
        1 ≤ r → r ≤ 4 → s.sequence.length = 25 → s.index < 25 →
        ∃ s1, addColor s r = some s1 ∧
          s1.index = s.index + 1 ∧
          s1.sequence.getD s.index Color.NO_COLOR = natToColor r ∧
          natToColor r ≠ Color.NO_COLOR) ∧
    (∀ r1 r2 : Nat, 1 ≤ r1 → r1 ≤ 4 → 1 ≤ r2 → r2 ≤ 4 →
        natToColor r1 = natToColor r2 → r1 = r2) ∧
    (∀ c : Color, c ≠ Color.NO_COLOR →
        ∃ r : Nat, 1 ≤ r ∧ r ≤ 4 ∧ natToColor r = c) := by
  refine ⟨?_, ?_, ?_⟩
  · intro s r h1 h4 hlen hlt
    refine ⟨_, by rw [addColor, if_pos hlt], ?_, ?_, ?_⟩
    · simp [Nat.mod_eq_of_lt (show s.index + 1 < 256 by omega)]
    · exact getD_set_self s.sequence s.index (natToColor r) Color.NO_COLOR
        (by omega)
    · interval_cases r <;> decide
  · intro r1 r2 h1 h2 h3 h4 h
    interval_cases r1 <;> interval_cases r2 <;> first | rfl | cases h
  · intro c hc
    cases c with
    | NO_COLOR => exact absurd rfl hc
    | RED => exact ⟨1, by omega, by omega, rfl⟩
    | BLUE => exact ⟨2, by omega, by omega, rfl⟩
    | GREEN => exact ⟨3, by omega, by omega, rfl⟩
    | YELLOW => exact ⟨4, by omega, by omega, rfl⟩

/-- Concrete instance of C4: drawing 2 at the initial state appends BLUE
at position 0 and moves `index` to 1. -/
theorem addColor_appends_random_playable_witness :
    (∃ s1, addColor initGameState 2 = some s1 ∧
       s1.index = initGameState.index + 1 ∧
       s1.sequence.getD initGameState.index Color.NO_COLOR = natToColor 2 ∧
       natToColor 2 ≠ Color.NO_COLOR) ∧
    (3 : Nat) = 3 ∧
    (∃ r : Nat, 1 ≤ r ∧ r ≤ 4 ∧ natToColor r = Color.GREEN) :=
  ⟨addColor_appends_random_playable.1 initGameState 2 (by decide) (by decide)
      (by decide) (by decide),
   addColor_appends_random_playable.2.1 3 3 (by decide) (by decide)
      (by decide) (by decide) rfl,
   addColor_appends_random_playable.2.2 Color.GREEN (by decide)⟩

/-- C5: `displaySequence` emits exactly `index` pulses, pulse i driving the
LED pin of `sequence[i]`, and returns the game state unchanged. -/
theorem displaySequence_pulse_trace :
    ∀ s : GameState, s.index ≤ s.sequence.length →
      (displaySequence s).1 = s ∧
      (displaySequence s).2.length = s.index ∧
      (∀ i, i < s.index →
        (displaySequence s).2.getD i 0 =
          displayColorPin (s.sequence.getD i Color.NO_COLOR)) := by
  intro s hle
  refine ⟨rfl, ?_, ?_⟩
  · simp [displaySequence, List.length_take, Nat.min_eq_left hle]
  · intro i hi
    have hlen : i < s.sequence.length := lt_of_lt_of_le hi hle
    simp [displaySequence, List.getD_eq_getElem?_getD, List.getElem?_map,
      List.getElem?_take, hi, List.getElem?_eq_getElem, hlen]

/-- Concrete instance of C5: a state holding [RED, BLUE] with index 2
emits the two pulses (RED_LED, BLUE_LED) and is returned unchanged. -/
theorem displaySequence_pulse_trace_witness :
    (displaySequence
        { has_lost := false,
          sequence :=
            Color.RED :: Color.BLUE :: List.replicate 23 Color.NO_COLOR,
          index := 2 }).1 =
      { has_lost := false,
        sequence :=
          Color.RED :: Color.BLUE :: List.replicate 23 Color.NO_COLOR,
        index := 2 } ∧
    (displaySequence
        { has_lost := false,
          sequence :=
            Color.RED :: Color.BLUE :: List.replicate 23 Color.NO_COLOR,
          index := 2 }).2.length = 2 ∧
    (displaySequence
        { has_lost := false,
          sequence :=
            Color.RED :: Color.BLUE :: List.replicate 23 Color.NO_COLOR,
          index := 2 }).2.getD 1 0 =
      displayColorPin
        (({ has_lost := false,
            sequence :=
              Color.RED :: Color.BLUE :: List.replicate 23 Color.NO_COLOR,
            index := 2 } : GameState).sequence.getD 1 Color.NO_COLOR) :=
  ⟨(displaySequence_pulse_trace
      { has_lost := false,
        sequence :=
          Color.RED :: Color.BLUE :: List.replicate 23 Color.NO_COLOR,
        index := 2 } (by decide)).1,
   (displaySequence_pulse_trace
      { has_lost := false,
        sequence :=
          Color.RED :: Color.BLUE :: List.replicate 23 Color.NO_COLOR,
        index := 2 } (by decide)).2.1,
   (displaySequence_pulse_trace
      { has_lost := false,
        sequence :=
          Color.RED :: Color.BLUE :: List.replicate 23 Color.NO_COLOR,
        index := 2 } (by decide)).2.2 1 (by decide)⟩

/-- C6: whenever at least one line is high, `getButtonPressed` selects the
button pin of the highest-priority high line in the fixed order
red > blue > green > yellow (the spec-side selection
`highestPriorityPressed`), and `getButtonColor` returns that line's
color. -/
theorem getButtonColor_priority :
    ∀ b : ButtonStates, buttonIsPressed b = true →
      highestPriorityPressed b ≠ none ∧
      getButtonPressed b =
        colorToButton ((highestPriorityPressed b).getD Color.NO_COLOR) ∧
      getButtonColor b = (highestPriorityPressed b).getD Color.NO_COLOR := by
  decide

/-- Concrete instance of C6: with blue and yellow high simultaneously, the
blue line wins: pin `BLUE_BUTTON` is selected and `BLUE` returned. -/
theorem getButtonColor_priority_witness :
    highestPriorityPressed
        { red := false, blue := true, green := false, yellow := true } ≠ none ∧
    getButtonPressed
        { red := false, blue := true, green := false, yellow := true } =
      colorToButton
        ((highestPriorityPressed
            { red := false, blue := true, green := false, yellow := true
              }).getD Color.NO_COLOR) ∧
    getButtonColor
        { red := false, blue := true, green := false, yellow := true } =
      (highestPriorityPressed
          { red := false, blue := true, green := false, yellow := true
            }).getD Color.NO_COLOR :=
  getButtonColor_priority
    { red := false, blue := true, green := false, yellow := true } (by decide)

/-- C7: `addColor` performs no capacity check: its array write (and hence
the whole operation) is in bounds exactly when `index < 25`; for
`index ≥ 25` the write of the C source is out of bounds (the embedding's
`none`), with no error branch in the code — the source writes
unconditionally. -/
theorem addColor_in_bounds_iff :
    ∀ (s : GameState) (r : Nat),
      (addColor s r).isSome = true ↔ s.index < 25 := by
  intro s r
  unfold addColor
  split <;> simp [*]

/-- C8: `addColor` is append-only: it keeps `has_lost` and every sequence
slot other than position `index` (in particular the live slots `0 ..
index - 1`), writes only `sequence[index]`, and bumps `index`; and the
rest of `startNextRound` (playback and the comparison phase) writes no
sequence element and leaves `index` alone. -/
theorem addColor_append_only_frame :
    ∀ (s : GameState) (r : Nat) (s1 : GameState),
      s.sequence.length = 25 →
      addColor s r = some s1 →
      s1.has_lost = s.has_lost ∧
      s1.index = s.index + 1 ∧
      s1.sequence.length = s.sequence.length ∧
      s1.sequence.getD s.index Color.NO_COLOR = natToColor r ∧
      (∀ i, i ≠ s.index →
        s1.sequence.getD i Color.NO_COLOR = s.sequence.getD i Color.NO_COLOR) ∧
      (∀ (inputs : Nat → Color) (s2 : GameState),
        startNextRound s r inputs = some s2 →
        s2.sequence = s1.sequence ∧ s2.index = s1.index) := by
  intro s r s1 hlen hac
  obtain ⟨hlt, rfl⟩ := addColor_eq_some hac
  refine ⟨rfl, rfl, by simp, ?_, ?_, ?_⟩
  · exact getD_set_self s.sequence s.index (natToColor r) Color.NO_COLOR
      (by omega)
  · intro i hi
    exact getD_set_ne s.sequence s.index i (natToColor r) Color.NO_COLOR
      (fun h => hi h.symm)
  · intro inputs s2 hsr
    obtain ⟨-, hidx, hseq, -⟩ := startNextRound_eq_some hsr
    exact ⟨hseq, hidx⟩

/-- Concrete instance of C8: appending a draw of 4 (YELLOW) to a state
holding [RED] touches only slot 1 and the counter. -/
theorem addColor_append_only_frame_witness :
    ({ has_lost := false,
       sequence :=
         Color.RED :: Color.YELLOW :: List.replicate 23 Color.NO_COLOR,
       index := 2 } : GameState).has_lost = false ∧
    ({ has_lost := false,
       sequence :=
         Color.RED :: Color.YELLOW :: List.replicate 23 Color.NO_COLOR,
       index := 2 } : GameState).sequence.getD 0 Color.NO_COLOR =
      ({ has_lost := false,
         sequence := Color.RED :: List.replicate 24 Color.NO_COLOR,
         index := 1 } : GameState).sequence.getD 0 Color.NO_COLOR :=
  ⟨(addColor_append_only_frame
      { has_lost := false,
        sequence := Color.RED :: List.replicate 24 Color.NO_COLOR,
        index := 1 } 4
      { has_lost := false,
        sequence :=
          Color.RED :: Color.YELLOW :: List.replicate 23 Color.NO_COLOR,
        index := 2 } (by decide) (by decide)).1,
   (addColor_append_only_frame
      { has_lost := false,
        sequence := Color.RED :: List.replicate 24 Color.NO_COLOR,
        index := 1 } 4
      { has_lost := false,
        sequence :=
          Color.RED :: Color.YELLOW :: List.replicate 23 Color.NO_COLOR,
        index := 2 } (by decide) (by decide)).2.2.2.2.1 0 (by decide)⟩

/-- One `loop()` iteration whose round draw lies in `random`'s range
preserves the invariant. -/
theorem loopStep_preserves_liveColorsOk {s : GameState} {r : Nat}
    {inputs : Nat → Color} {s1 : GameState} {b : Bool}
    (hInv : liveColorsOk s) (hr1 : 1 ≤ r) (hr4 : r ≤ 4)
    (h : loopStep s r inputs = some (s1, b)) : liveColorsOk s1 := by
  obtain ⟨hlen, hcap, hlive⟩ := hInv
  unfold loopStep at h
  split at h
  · obtain rfl := (Prod.mk.injEq _ _ _ _ ▸ Option.some.inj h).1.symm
    exact ⟨hlen, hcap, hlive⟩
  · rw [Option.map_eq_some'] at h
    obtain ⟨sM, hsr, hpair⟩ := h
    obtain rfl := (Prod.mk.injEq _ _ _ _ ▸ hpair).1
    obtain ⟨hlt, hidx, hseq, -⟩ := startNextRound_eq_some hsr
    refine ⟨by rw [hseq, List.length_set, hlen], by omega, ?_⟩
    intro i hi
    rw [hidx] at hi
    rw [hseq]
    by_cases hcase : i = s.index
    · subst hcase
      rw [getD_set_self s.sequence s.index (natToColor r) Color.NO_COLOR
        (by omega)]
      interval_cases r <;> decide
    · rw [getD_set_ne s.sequence s.index i (natToColor r) Color.NO_COLOR
        (fun hEq => hcase hEq.symm)]
      exact hlive i (by omega)

/-- The invariant holds in every state the main loop can reach from the
initial state, given each iteration's draw lies in `random`'s range. -/
theorem runLoop_preserves_liveColorsOk
    {rounds : List (Nat × (Nat → Color))} :
    ∀ s s1 : GameState, liveColorsOk s →
      (∀ p ∈ rounds, 1 ≤ p.1 ∧ p.1 ≤ 4) →
      runLoop s rounds = some s1 → liveColorsOk s1 := by
  induction rounds with
  | nil =>
    intro s s1 hInv _ h
    simp only [runLoop] at h
    obtain rfl := Option.some.inj h
    exact hInv
  | cons p rest ih =>
    intro s s1 hInv hr h
    simp only [runLoop] at h
    split at h
    · cases h
    · next t hstep =>
      have hp := hr p (by simp)
      have hInv1 : liveColorsOk t.1 := by
        cases t with
        | mk tS tB => exact loopStep_preserves_liveColorsOk hInv hp.1 hp.2 hstep
      exact ih t.1 s1 hInv1 (fun q hq => hr q (by simp [hq])) h

/-- C9: from the initial state, along any run of the main loop whose round
draws lie in `random`'s range [1, 4], every live slot of the sequence
(position below `index`) holds one of the four playable colors — `NO_COLOR`
never appears below `index`, so playback never takes `displayColor`'s
default branch. -/
theorem live_slots_always_playable :
    ∀ (rounds : List (Nat × (Nat → Color))) (s1 : GameState),
      (∀ p ∈ rounds, 1 ≤ p.1 ∧ p.1 ≤ 4) →
      runLoop initGameState rounds = some s1 →
      ∀ i, i < s1.index →
        s1.sequence.getD i Color.NO_COLOR ∈ priorityColors := by
  intro rounds s1 hr h
  have hInit : liveColorsOk initGameState := by
    refine ⟨by simp [initGameState], by simp [initGameState], ?_⟩
    intro i hi
    simp [initGameState] at hi
  exact (runLoop_preserves_liveColorsOk initGameState s1 hInit hr h).2.2

/-- Concrete instance of C9: after one round drawing 3 (GREEN) answered
correctly, slot 0 holds a playable color. -/
theorem live_slots_always_playable_witness :
    ({ has_lost := false,
       sequence := Color.GREEN :: List.replicate 24 Color.NO_COLOR,
       index := 1 } : GameState).sequence.getD 0 Color.NO_COLOR ∈
      priorityColors :=
  live_slots_always_playable [(3, fun _ => Color.GREEN)]
    { has_lost := false,
      sequence := Color.GREEN :: List.replicate 24 Color.NO_COLOR,
      index := 1 }
    (by decide) (by decide) 0 (by decide)

/-- C10: coherence of the three pin/color maps: composing `buttonToColor`
with `colorToLED` agrees with `buttonToLED` on every `uint8_t` pin value —
each button pin reaches the same LED pin through its color as directly,
and every unknown pin yields 0 on both paths (`buttonToLED`'s `default:`
returns the enum value `NO_COLOR`, numerically 0). -/
theorem pin_color_maps_coherent :
    ∀ p : Fin 256, colorToLED (buttonToColor p.val) = buttonToLED p.val := by
  intro p
  unfold buttonToColor buttonToLED
  split_ifs <;> rfl
